import Mathlib

/-!
Shallow embedding of `poll_polymarket_alert.py`, a Telegram alert bot that
watches Polygon wallet addresses for subscribers and notifies them of new
transactions, optionally enriched with Polymarket trade data.

The two JSON-backed Python dicts (`subs`: chat id to list of followed
addresses, `seen`: address to last-notified transaction hash or null) are
modelled as insertion-ordered association lists, which is how Python dicts
behave.  Persistence (`save_subs` / `save_seen`) writes the full in-memory
state to disk, so the in-memory state itself is the model of the durable
state.  Network calls are modelled by passing their fetched results in as
arguments (a failed fetch never reaches the code paths embedded here; the
caller skips the address for the cycle).
-/

namespace PolyAlert

set_option autoImplicit false

/-- A transaction record as fetched from the chain-data API, after the
field extraction the Python code performs: the hash field, the
timeStamp field parsed as an integer (default 0), the from and to
fields, the value field parsed as an integer (default 0), and the raw
input payload. -/
structure Tx where
  hash : String
  timeStamp : Nat
  fromAddr : String
  toAddr : String
  value : Int
  input : String
  deriving Repr, DecidableEq

/-- A trade record as returned by the Polymarket data API; every field is
optional because the Python code reads each with `dict.get`. -/
structure Trade where
  txHash : Option String
  transactionHash : Option String
  transaction_hash : Option String
  side : Option String
  price : Option String
  size : Option String
  title : Option String
  name : Option String
  market : Option String
  outcome : Option String
  deriving Repr, DecidableEq

/-- Python-dict lookup `m.get(k)` on an insertion-ordered association list:
first binding of the key, if any. -/
def alGet {α : Type} (k : String) : List (String × α) → Option α
  | [] => none
  | (k₁, v) :: rest => if k₁ = k then some v else alGet k rest

/-- Python-dict assignment `m[k] = v`: overwrite in place if the key is
bound, else append (Python dicts keep insertion order). -/
def alSet {α : Type} (k : String) (v : α) : List (String × α) → List (String × α)
  | [] => [(k, v)]
  | (k₁, v₁) :: rest => if k₁ = k then (k, v) :: rest else (k₁, v₁) :: alSet k v rest

/-- Python `m.setdefault(k, d)`: insert `d` only when the key is unbound. -/
def alSetdefault {α : Type} (k : String) (d : α) (m : List (String × α)) :
    List (String × α) :=
  match alGet k m with
  | some _ => m
  | none => m ++ [(k, d)]

/-- Python `s.strip()`: drop leading and trailing whitespace.  Computed
on the character list so that it evaluates by kernel reduction. -/
def pyStrip (s : String) : String :=
  String.mk (((s.data.dropWhile Char.isWhitespace).reverse.dropWhile
    Char.isWhitespace).reverse)

/-- Python `s.lower()`: lowercase each character (the ASCII range, which
is all that addresses and commands contain). -/
def pyLower (s : String) : String :=
  String.mk (s.data.map Char.toLower)

/-- Python `s.startswith(p)`. -/
def pyStartsWith (s p : String) : Bool :=
  s.data.take p.data.length == p.data

/-- `norm_addr`: `a.strip().lower()`. -/
def norm_addr (a : String) : String :=
  pyLower (pyStrip a)

/-- The mutable global state of the bot: `subs` maps a chat id (stringified)
to the list of normalized addresses it follows; `seen` maps a normalized
address to its watermark, `none` standing for JSON null (uninitialized). -/
structure BotState where
  subs : List (String × List String)
  seen : List (String × Option String)
  deriving Repr, DecidableEq

/-- `add_subscription(chat_id, address)`: normalizes, no-ops returning
False when already present, otherwise appends the address to the chat
list, persists, and `seen.setdefault(a, None)` ensures a watermark entry
exists without overwriting one. -/
def add_subscription (st : BotState) (chat_id : Int) (address : String) :
    Bool × BotState :=
  let cid := toString chat_id
  let a := norm_addr address
  let lst := (alGet cid st.subs).getD []
  if a ∈ lst then
    (false, st)
  else
    let lst₁ := lst ++ [a]
    (true, { subs := alSet cid lst₁ st.subs, seen := alSetdefault a none st.seen })

/-- `remove_subscription(chat_id, address)`: returns False and leaves the
state untouched when the normalized address is not in the chat list,
otherwise removes the first occurrence and persists. -/
def remove_subscription (st : BotState) (chat_id : Int) (address : String) :
    Bool × BotState :=
  let cid := toString chat_id
  let a := norm_addr address
  let lst := (alGet cid st.subs).getD []
  if a ∈ lst then
    (true, { st with subs := alSet cid (lst.erase a) st.subs })
  else
    (false, st)

/-- `seen.get(addr)` as used by the poll loop: `none` both when the key is
unbound and when it is bound to null — Python cannot tell the two apart
through `dict.get`. -/
def getSeen (st : BotState) (addr : String) : Option String :=
  (alGet addr st.seen).getD none

/-- The scan of `poll_subscriptions` over the fetched list (lines 315-322):
`seen_flag` starts False; an entry whose hash equals `last_seen` sets the
flag and is skipped (the equality test comes before the flag test, so every
occurrence of the watermark hash is skipped); entries met while the flag is
set are collected.  Returns the final flag and the collected `new_list`. -/
def scanLoop (last_seen : String) : List Tx → Bool → Bool × List Tx
  | [], flag => (flag, [])
  | tx :: rest, flag =>
    if tx.hash = last_seen then
      scanLoop last_seen rest true
    else if flag then
      let r := scanLoop last_seen rest flag
      (r.1, tx :: r.2)
    else
      scanLoop last_seen rest flag

/-- The per-transaction dispatch loop (lines 325-335) as it acts on the
watermark store: after formatting and sending each alert, `seen[addr]` is
set to that transaction hash and persisted, one write per dispatched
transaction. -/
def dispatchAll (seen : List (String × Option String)) (addr : String)
    (new_list : List Tx) : List (String × Option String) :=
  new_list.foldl (fun s tx => alSet addr (some tx.hash) s) seen

/-- One address iteration of the poll cycle (lines 301-335), given the
fetched transaction list `txs` (ascending by time, as requested from the
API).  Returns the updated state together with the list of transactions
for which an alert is dispatched, in dispatch order; each such alert is
fanned out to every chat whose list contains `addr`.  An empty fetch is
skipped before the watermark is consulted; an uninitialized watermark is
seeded to the hash of `txs[-1]` with no alert; otherwise the scan computes
`new_list`, falling back to `txs[-2:]` when the watermark hash was not
found. -/
def pollStepForAddr (st : BotState) (addr : String) (txs : List Tx) :
    BotState × List Tx :=
  match txs.getLast? with
  | none => (st, [])
  | some lastTx =>
    match getSeen st addr with
    | none =>
      ({ st with seen := alSet addr (some lastTx.hash) st.seen }, [])
    | some last_seen =>
      let r := scanLoop last_seen txs false
      let new_list := if r.1 then r.2 else txs.drop (txs.length - 2)
      ({ st with seen := dispatchAll st.seen addr new_list }, new_list)

/-- Zero-padded two-digit rendering used by the strftime fields. -/
def pad2 (n : Nat) : String :=
  if n < 10 then "0" ++ toString n else toString n

/-- Gregorian date (year, month, day) for a count of days since
1970-01-01, by the standard civil-from-days computation; models the date
part of `datetime.utcfromtimestamp`. -/
def civilFromDays (z : Nat) : Nat × Nat × Nat :=
  let z₁ := z + 719468
  let era := z₁ / 146097
  let doe := z₁ % 146097
  let yoe := (doe - doe / 1460 + doe / 36524 - doe / 146096) / 365
  let y := yoe + era * 400
  let doy := doe - (365 * yoe + yoe / 4 - yoe / 100)
  let mp := (5 * doy + 2) / 153
  let d := doy - (153 * mp + 2) / 5 + 1
  let m := if mp < 10 then mp + 3 else mp - 9
  (if m ≤ 2 then y + 1 else y, m, d)

/-- Python `datetime.utcfromtimestamp(ts).strftime` with the format
`%Y-%m-%d %H:%M:%S UTC`. -/
def fmtTimestampUTC (ts : Nat) : String :=
  let ymd := civilFromDays (ts / 86400)
  let secs := ts % 86400
  toString ymd.1 ++ "-" ++ pad2 ymd.2.1 ++ "-" ++ pad2 ymd.2.2 ++ " " ++
    pad2 (secs / 3600) ++ ":" ++ pad2 (secs % 3600 / 60) ++ ":" ++
    pad2 (secs % 60) ++ " UTC"

/-- Rendering of `int(value)/(10**18)` inside an f-string.  Python prints
a binary float; the model renders the exact decimal quotient instead (no
claim depends on the digits, only on where the rendering appears). -/
def fmtMatic (wei : Int) : String :=
  (if wei < 0 then "-" else "") ++ toString (wei.natAbs / 10 ^ 18) ++ "." ++
    toString (wei.natAbs % 10 ^ 18)

/-- f-string interpolation of a value that may be None. -/
def optStr : Option String → String
  | none => "None"
  | some s => s

/-- Python truthiness of an optional string: None and the empty string
are falsy. -/
def strTruthy : Option String → Bool
  | none => false
  | some s => !(s == "")

/-- Python `x or y` on optional strings: `x` when truthy, else `y`. -/
def strOr (x y : Option String) : Option String :=
  if strTruthy x then x else y

/-- `match_tx_with_polymarket_trade(tx_hash, wallet)` applied to the list
the trades endpoint returned (`none` entries model the falsy elements the
loop skips with `if not t: continue`): the first trade whose
`txHash`/`transactionHash`/`transaction_hash` field is truthy and equals
`tx_hash` case-insensitively. -/
def match_tx_with_polymarket_trade (tx_hash : String) :
    List (Option Trade) → Option Trade
  | [] => none
  | none :: rest => match_tx_with_polymarket_trade tx_hash rest
  | some t :: rest =>
    let txh := strOr (strOr t.txHash t.transactionHash) t.transaction_hash
    if strTruthy txh && pyLower (txh.getD "") == pyLower tx_hash then
      some t
    else
      match_tx_with_polymarket_trade tx_hash rest

/-- The plain-transaction notification (lines 285-291).  The Python source
separates the fragments with a two-character literal backslash-n, kept
verbatim here. -/
def plainTxMsg (address : String) (tx : Tx) : String :=
  "*New transaction by* `" ++ address ++ "`\\n" ++
  "*Time:* " ++ fmtTimestampUTC tx.timeStamp ++ "\\n" ++
  "*From:* `" ++ tx.fromAddr ++ "`\\n" ++
  "*To:* `" ++ tx.toAddr ++ "`\\n" ++
  "*Value (MATIC):* " ++ fmtMatic tx.value ++ "\\n" ++
  "*Tx:* https://polygonscan.com/tx/" ++ tx.hash ++ "\\n\\n" ++
  "_Raw input:_ `" ++ tx.input.take 200 ++ "`"

/-- The enriched trade notification (lines 278-283). -/
def tradeMsg (address : String) (tx : Tx) (trade : Trade) : String :=
  "*Polymarket Trade by* `" ++ address ++ "`\\n" ++
  "*Market:* " ++ optStr (strOr (strOr trade.title trade.name) trade.market) ++ "\\n" ++
  "*Outcome:* " ++ optStr trade.outcome ++ "\\n" ++
  "*Side:* " ++ optStr trade.side ++ " | *Price:* " ++ optStr trade.price ++
    " | *Size:* " ++ optStr trade.size ++ "\\n" ++
  "*Time:* " ++ fmtTimestampUTC tx.timeStamp ++ "\\n" ++
  "*Tx:* https://polygonscan.com/tx/" ++ tx.hash ++ "\\n"

/-- `fmt_tx_message_for_subscribers(address, tx)` with the market-data
lookup result passed in: `trades` is what
`polymarket_get_recent_trades_for_wallet` returned — the empty list when
that HTTP call failed, and a raised lookup exception is caught into no
trade as well, so both failure modes land in the `none` branch. -/
def fmt_tx_message_for_subscribers (address : String) (tx : Tx)
    (trades : List (Option Trade)) : String :=
  match match_tx_with_polymarket_trade tx.hash trades with
  | some trade => tradeMsg address tx trade
  | none => plainTxMsg address tx

/-- An inbound Telegram message: the chat id and the text field read
with `m.get`, a missing text field reading as the empty string. -/
structure Msg where
  chatId : Int
  text : String
  deriving Repr, DecidableEq

/-- An inbound update; `message` is absent for non-message updates. -/
structure Update where
  message : Option Msg
  deriving Repr, DecidableEq

/-- `text.split(maxsplit=1)` as applied to already-stripped text: the
first whitespace-delimited token, and the remainder after the whitespace
run (`none` when nothing follows). -/
def splitMaxsplit1 (s : String) : String × Option String :=
  let cs := s.data
  let tok := cs.takeWhile (fun c => !c.isWhitespace)
  let rest := (cs.dropWhile (fun c => !c.isWhitespace)).dropWhile Char.isWhitespace
  (String.mk tok, if rest.isEmpty then none else some (String.mk rest))

/-- The /help reply text (line 202). -/
def helpText : String :=
  "Usage:\n/follow <address> - follow an address and receive alerts\n/unfollow <address> - stop following\n/list - list addresses you follow\n/info <address> - get wallet details now\nOr simply paste a Polygon wallet address to get details and follow prompt."

/-- The fall-through reply for unrecognized or malformed commands
(line 230). -/
def unknownCmdText : String := "Unknown command. Send /help for usage."

/-- `process_update(u)`, with `fmt_wallet_info` passed in as `walletInfo`
(that helper only performs network reads and formatting; its output never
feeds back into state).  Returns the `(chat_id, text)` pairs handed to
`send_telegram`, in order, together with the updated state. -/
def process_update (walletInfo : String → String) (st : BotState) (u : Update) :
    List (Int × String) × BotState :=
  match u.message with
  | none => ([], st)
  | some m =>
    if m.text == "" then ([], st)
    else
      let chat_id := m.chatId
      let text := pyStrip m.text
      if pyStartsWith text "/" then
        let parts := splitMaxsplit1 text
        let cmd := pyLower parts.1
        let arg := parts.2
        if cmd == "/help" then
          ([(chat_id, helpText)], st)
        else if cmd == "/follow" && strTruthy arg then
          let r := add_subscription st chat_id (arg.getD "")
          if r.1 then
            ([(chat_id, "✅ Now following `" ++ norm_addr (arg.getD "") ++ "` for alerts.")], r.2)
          else
            ([(chat_id, "ℹ️ `" ++ norm_addr (arg.getD "") ++ "` was already in your list.")], r.2)
        else if cmd == "/unfollow" && strTruthy arg then
          let r := remove_subscription st chat_id (arg.getD "")
          if r.1 then
            ([(chat_id, "🗑️ Unfollowed `" ++ norm_addr (arg.getD "") ++ "`")], r.2)
          else
            ([(chat_id, "⚠️ `" ++ norm_addr (arg.getD "") ++ "` not found in your subscriptions.")], r.2)
        else if cmd == "/list" then
          let lst := (alGet (toString chat_id) st.subs).getD []
          if lst.isEmpty then
            ([(chat_id, "You are not following any addresses.")], st)
          else
            ([(chat_id, "*Your subscriptions:*\n" ++
               String.intercalate "\n" (lst.map (fun a => "- `" ++ a ++ "`")))], st)
        else if cmd == "/info" && strTruthy arg then
          ([(chat_id, walletInfo (arg.getD ""))], st)
        else
          ([(chat_id, unknownCmdText)], st)
      else
        let txt := pyStrip text
        if pyStartsWith txt "0x" && decide (10 ≤ txt.data.length) then
          ([(chat_id, walletInfo txt),
            (chat_id, "To receive ongoing alerts for this address, reply with `/follow " ++ norm_addr txt ++ "`")], st)
        else
          ([(chat_id, "Send a Polygon wallet address (0x...) or /help for commands.")], st)

/-! ### Association-list lemmas -/

theorem alGet_alSet_self {α : Type} (k : String) (v : α) (m : List (String × α)) :
    alGet k (alSet k v m) = some v := by
  induction m with
  | nil => simp [alGet, alSet]
  | cons p rest ih =>
    by_cases h : p.1 = k
    · simp [alGet, alSet, h]
    · simp [alGet, alSet, h, ih]

theorem alGet_alSet_ne {α : Type} (k k₁ : String) (v : α) (m : List (String × α))
    (h : k₁ ≠ k) : alGet k₁ (alSet k v m) = alGet k₁ m := by
  have h₀ : ¬(k = k₁) := fun h₂ => h h₂.symm
  induction m with
  | nil => simp [alGet, alSet, h₀]
  | cons p rest ih =>
    by_cases hp : p.1 = k
    · subst hp
      simp [alGet, alSet, h₀]
    · simp [alGet, alSet, hp, ih]

theorem alGet_append_left {α : Type} (k : String) (v : α) (m m₁ : List (String × α))
    (h : alGet k m = some v) : alGet k (m ++ m₁) = some v := by
  induction m with
  | nil => simp [alGet] at h
  | cons p rest ih =>
    by_cases hp : p.1 = k
    · simpa [alGet, hp] using h
    · simp [alGet, hp] at h ⊢
      exact ih h

theorem alGet_append_right {α : Type} (k : String) (m m₁ : List (String × α))
    (h : alGet k m = none) : alGet k (m ++ m₁) = alGet k m₁ := by
  induction m with
  | nil => simp
  | cons p rest ih =>
    by_cases hp : p.1 = k
    · simp [alGet, hp] at h
    · simp [alGet, hp] at h ⊢
      exact ih h

theorem alSetdefault_of_some {α : Type} (k : String) (d : α) (m : List (String × α))
    (h : (alGet k m).isSome) : alSetdefault k d m = m := by
  unfold alSetdefault
  cases hm : alGet k m with
  | none => rw [hm] at h; simp at h
  | some v => rfl

theorem alGet_alSetdefault_of_none {α : Type} (k : String) (d : α)
    (m : List (String × α)) (h : alGet k m = none) :
    alGet k (alSetdefault k d m) = some d := by
  unfold alSetdefault
  rw [h, alGet_append_right k m _ h]
  simp [alGet]

theorem alGet_alSetdefault_ne {α : Type} (k k₁ : String) (d : α)
    (m : List (String × α)) (h : k₁ ≠ k) :
    alGet k₁ (alSetdefault k d m) = alGet k₁ m := by
  unfold alSetdefault
  cases hm : alGet k m with
  | some v => rfl
  | none =>
    cases hk : alGet k₁ m with
    | some v => exact alGet_append_left k₁ v m _ hk
    | none =>
      have h₀ : ¬(k = k₁) := fun h₂ => h h₂.symm
      rw [alGet_append_right k₁ m _ hk]
      simp [alGet, h₀]

/-! ### Dispatch-loop lemmas -/

theorem dispatchAll_nil (seen : List (String × Option String)) (addr : String) :
    dispatchAll seen addr [] = seen := rfl

theorem dispatchAll_cons (seen : List (String × Option String)) (addr : String)
    (tx : Tx) (rest : List Tx) :
    dispatchAll seen addr (tx :: rest) =
      dispatchAll (alSet addr (some tx.hash) seen) addr rest := rfl

theorem alGet_dispatchAll (seen : List (String × Option String)) (addr : String)
    (l : List Tx) :
    alGet addr (dispatchAll seen addr l) =
      match l.getLast? with
      | none => alGet addr seen
      | some t => some (some t.hash) := by
  induction l generalizing seen with
  | nil => rfl
  | cons tx rest ih =>
    rw [dispatchAll_cons]
    cases rest with
    | nil => simp [dispatchAll, alGet_alSet_self]
    | cons b bs =>
      rw [ih, List.getLast?_cons_cons]
      cases hbl : (b :: bs).getLast? with
      | none => simp [List.getLast?_eq_none_iff] at hbl
      | some t => rfl

theorem alGet_dispatchAll_ne (seen : List (String × Option String))
    (addr b : String) (l : List Tx) (h : b ≠ addr) :
    alGet b (dispatchAll seen addr l) = alGet b seen := by
  induction l generalizing seen with
  | nil => rfl
  | cons tx rest ih => rw [dispatchAll_cons, ih, alGet_alSet_ne _ _ _ _ h]

/-! ### Scan-loop lemmas -/

theorem scanLoop_nil (w : String) (flag : Bool) : scanLoop w [] flag = (flag, []) := rfl

theorem scanLoop_cons (w : String) (tx : Tx) (rest : List Tx) (flag : Bool) :
    scanLoop w (tx :: rest) flag =
      if tx.hash = w then scanLoop w rest true
      else if flag then ((scanLoop w rest flag).1, tx :: (scanLoop w rest flag).2)
      else scanLoop w rest flag := by
  cases flag <;> rfl

theorem scanLoop_true_of_not_mem (w : String) (txs : List Tx)
    (h : ∀ tx ∈ txs, tx.hash ≠ w) : scanLoop w txs true = (true, txs) := by
  induction txs with
  | nil => rfl
  | cons tx rest ih =>
    have h₁ : ¬(tx.hash = w) := h tx (by simp)
    rw [scanLoop_cons, if_neg h₁, if_pos rfl, ih (fun t ht => h t (by simp [ht]))]

theorem scanLoop_false_of_not_mem (w : String) (txs : List Tx)
    (h : ∀ tx ∈ txs, tx.hash ≠ w) : scanLoop w txs false = (false, []) := by
  induction txs with
  | nil => rfl
  | cons tx rest ih =>
    have h₁ : ¬(tx.hash = w) := h tx (by simp)
    rw [scanLoop_cons, if_neg h₁, if_neg (by simp)]
    exact ih (fun t ht => h t (by simp [ht]))

theorem scanLoop_append_not_mem (w : String) (pre rest : List Tx)
    (h : ∀ tx ∈ pre, tx.hash ≠ w) :
    scanLoop w (pre ++ rest) false = scanLoop w rest false := by
  induction pre with
  | nil => rfl
  | cons tx pre₁ ih =>
    have h₁ : ¬(tx.hash = w) := h tx (by simp)
    rw [List.cons_append, scanLoop_cons, if_neg h₁, if_neg (by simp)]
    exact ih (fun t ht => h t (by simp [ht]))

theorem scanLoop_cons_hit (w : String) (wtx : Tx) (suf : List Tx)
    (h : wtx.hash = w) : scanLoop w (wtx :: suf) false = scanLoop w suf true := by
  rw [scanLoop_cons, if_pos h]

theorem scanLoop_true_subset (w : String) (txs : List Tx) (x : Tx)
    (hx : x ∈ (scanLoop w txs true).2) : x ∈ txs := by
  induction txs with
  | nil => rw [scanLoop_nil] at hx; simp at hx
  | cons tx rest ih =>
    rw [scanLoop_cons] at hx
    by_cases h : tx.hash = w
    · rw [if_pos h] at hx
      exact List.mem_cons_of_mem _ (ih hx)
    · rw [if_neg h, if_pos rfl] at hx
      rcases List.mem_cons.mp hx with hx | hx
      · simp [hx]
      · exact List.mem_cons_of_mem _ (ih hx)

theorem scanLoop_flag (w : String) (txs : List Tx) (flag : Bool) :
    (scanLoop w txs flag).1 = (flag || txs.any (fun tx => tx.hash == w)) := by
  induction txs generalizing flag with
  | nil => simp [scanLoop_nil]
  | cons tx rest ih =>
    rw [scanLoop_cons]
    by_cases h : tx.hash = w
    · rw [if_pos h, ih true]
      simp [h]
    · rw [if_neg h]
      cases flag
      · rw [if_neg (by simp), ih false]
        simp [h]
      · rw [if_pos rfl]
        simp [ih true, h]

theorem scanLoop_false_lt (idx : String → Nat) (w : String) (txs : List Tx)
    (hs : txs.Pairwise (fun a b => idx a.hash < idx b.hash)) (x : Tx)
    (hx : x ∈ (scanLoop w txs false).2) : idx w < idx x.hash := by
  induction txs with
  | nil => rw [scanLoop_nil] at hx; simp at hx
  | cons tx rest ih =>
    rw [scanLoop_cons] at hx
    by_cases h : tx.hash = w
    · rw [if_pos h] at hx
      have hmem := scanLoop_true_subset w rest x hx
      have hlt := (List.pairwise_cons.mp hs).1 x hmem
      rw [h] at hlt
      exact hlt
    · rw [if_neg h, if_neg (by simp)] at hx
      exact ih (List.pairwise_cons.mp hs).2 hx

theorem getLast?_take_eq (l : List Tx) (i : Nat) (h : i < l.length) :
    (l.take (i + 1)).getLast? = some l[i] := by
  rw [List.getLast?_take]
  simp [List.getElem?_eq_getElem h]

/-! ### Claim theorems -/

/-- Claim C1: for an address whose watermark is uninitialized, one poll
iteration with a non-empty fetched activity list dispatches no alert and
seeds the watermark to the hash of the newest (last) transaction; with an
empty fetched list it dispatches nothing and leaves the state untouched,
the watermark staying uninitialized. -/
theorem claim_C1_uninitialized_silent_sync (st : BotState) (addr : String)
    (txs : List Tx) (huninit : getSeen st addr = none) :
    (pollStepForAddr st addr txs).2 = [] ∧
    (∀ lastTx, txs.getLast? = some lastTx →
      getSeen (pollStepForAddr st addr txs).1 addr = some lastTx.hash) ∧
    (txs = [] → pollStepForAddr st addr txs = (st, [])) := by
  unfold pollStepForAddr
  cases hl : txs.getLast? with
  | none =>
    refine ⟨rfl, ?_, fun _ => rfl⟩
    intro lastTx hlast
    simp at hlast
  | some lastTx =>
    rw [huninit]
    refine ⟨rfl, ?_, ?_⟩
    · intro t ht
      injection ht with ht
      subst ht
      simp [getSeen, alGet_alSet_self]
    · intro he
      subst he
      simp at hl

/-- Witness for C1 at a concrete two-transaction fetch for a fresh
address. -/
theorem claim_C1_witness :
    getSeen (pollStepForAddr ⟨[("1", ["0xa"])], []⟩ "0xa"
        [⟨"h1", 1, "f", "t", 0, "i"⟩, ⟨"h2", 2, "f", "t", 0, "i"⟩]).1 "0xa" =
      some "h2" :=
  (claim_C1_uninitialized_silent_sync ⟨[("1", ["0xa"])], []⟩ "0xa"
      [⟨"h1", 1, "f", "t", 0, "i"⟩, ⟨"h2", 2, "f", "t", 0, "i"⟩] rfl).2.1
    ⟨"h2", 2, "f", "t", 0, "i"⟩ rfl

/-- Claim C2: when the fetched list is `pre ++ wtx :: suf` with the
watermark hash occurring exactly at `wtx`, one poll iteration dispatches
exactly the entries of `suf`, in fetch (ascending time) order; the
watermark store after the iteration is the result of writing each
dispatched hash in turn, after each dispatch the stored watermark equals
the hash of that transaction (each write being persisted), and the final
watermark is the hash of the last entry of the fetched list. -/
theorem claim_C2_dispatch_after_watermark (st : BotState) (addr w : String)
    (pre suf : List Tx) (wtx : Tx)
    (hw : getSeen st addr = some w) (hwtx : wtx.hash = w)
    (hpre : ∀ tx ∈ pre, tx.hash ≠ w) (hsuf : ∀ tx ∈ suf, tx.hash ≠ w) :
    (pollStepForAddr st addr (pre ++ wtx :: suf)).2 = suf ∧
    (pollStepForAddr st addr (pre ++ wtx :: suf)).1.seen =
      dispatchAll st.seen addr suf ∧
    (∀ i (hi : i < suf.length),
      alGet addr (dispatchAll st.seen addr (suf.take (i + 1))) =
        some (some suf[i].hash)) ∧
    (∀ lastTx, (pre ++ wtx :: suf).getLast? = some lastTx →
      getSeen (pollStepForAddr st addr (pre ++ wtx :: suf)).1 addr =
        some lastTx.hash) := by
  have hscan : scanLoop w (pre ++ wtx :: suf) false = (true, suf) := by
    rw [scanLoop_append_not_mem w pre _ hpre, scanLoop_cons_hit w wtx suf hwtx,
        scanLoop_true_of_not_mem w suf hsuf]
  have hmain : pollStepForAddr st addr (pre ++ wtx :: suf) =
      ({ st with seen := dispatchAll st.seen addr suf }, suf) := by
    unfold pollStepForAddr
    cases hl : (pre ++ wtx :: suf).getLast? with
    | none => simp at hl
    | some t =>
      rw [hw]
      simp [hscan]
  refine ⟨by rw [hmain], by rw [hmain], ?_, ?_⟩
  · intro i hi
    rw [alGet_dispatchAll, getLast?_take_eq suf i hi]
  · intro lastTx hlast
    rw [hmain]
    simp only [getSeen, alGet_dispatchAll]
    rw [List.getLast?_append] at hlast
    cases hsl : suf.getLast? with
    | none =>
      have hsufnil : suf = [] := by simpa using hsl
      subst hsufnil
      simp at hlast
      have hgoal : getSeen st addr = some lastTx.hash := by
        rw [hw, ← hlast, hwtx]
      exact hgoal
    | some t =>
      have hcons : (wtx :: suf).getLast? = some t := by
        rw [show wtx :: suf = [wtx] ++ suf from rfl, List.getLast?_append, hsl]
        rfl
      rw [hcons] at hlast
      simp at hlast
      simp [hlast]

/-- Witness for C2: watermark h1, fetch [h1, h2, h3]; exactly h2 and h3
are dispatched, in that order. -/
theorem claim_C2_witness :
    (pollStepForAddr ⟨[("1", ["0xa"])], [("0xa", some "h1")]⟩ "0xa"
        ([] ++ (⟨"h1", 1, "f", "t", 0, "i"⟩ : Tx) ::
          [⟨"h2", 2, "f", "t", 0, "i"⟩, ⟨"h3", 3, "f", "t", 0, "i"⟩])).2 =
      [⟨"h2", 2, "f", "t", 0, "i"⟩, ⟨"h3", 3, "f", "t", 0, "i"⟩] :=
  (claim_C2_dispatch_after_watermark ⟨[("1", ["0xa"])], [("0xa", some "h1")]⟩
      "0xa" "h1" [] [⟨"h2", 2, "f", "t", 0, "i"⟩, ⟨"h3", 3, "f", "t", 0, "i"⟩]
      ⟨"h1", 1, "f", "t", 0, "i"⟩ rfl rfl (by simp) (by decide)).1

/-- Claim C3: when the stored watermark hash occurs nowhere in the
non-empty fetched list, the iteration dispatches exactly the last two
entries of the list — the Python slice `txs[-2:]`, in fetch order, the
older of the two first (the whole list when it has a single element). -/
theorem claim_C3_lossy_recovery (st : BotState) (addr w : String)
    (txs : List Tx) (hw : getSeen st addr = some w)
    (habs : ∀ tx ∈ txs, tx.hash ≠ w) (hne : txs ≠ []) :
    (pollStepForAddr st addr txs).2 = txs.drop (txs.length - 2) ∧
    (pollStepForAddr st addr txs).2.length = min 2 txs.length := by
  have hscan := scanLoop_false_of_not_mem w txs habs
  have hmain : pollStepForAddr st addr txs =
      ({ st with seen := dispatchAll st.seen addr (txs.drop (txs.length - 2)) },
        txs.drop (txs.length - 2)) := by
    unfold pollStepForAddr
    cases hl : txs.getLast? with
    | none =>
      exact absurd (by simpa using hl) hne
    | some t =>
      rw [hw]
      simp [hscan]
  refine ⟨by rw [hmain], ?_⟩
  rw [hmain]
  simp only [List.length_drop]
  omega

/-- Witness for C3: watermark zz absent from [h1, h2, h3]; exactly the
last two entries are dispatched. -/
theorem claim_C3_witness :
    (pollStepForAddr ⟨[("1", ["0xa"])], [("0xa", some "zz")]⟩ "0xa"
        [⟨"h1", 1, "f", "t", 0, "i"⟩, ⟨"h2", 2, "f", "t", 0, "i"⟩,
         ⟨"h3", 3, "f", "t", 0, "i"⟩]).2 =
      List.drop (3 - 2)
        [⟨"h1", 1, "f", "t", 0, "i"⟩, ⟨"h2", 2, "f", "t", 0, "i"⟩,
         ⟨"h3", 3, "f", "t", 0, "i"⟩] :=
  (claim_C3_lossy_recovery ⟨[("1", ["0xa"])], [("0xa", some "zz")]⟩ "0xa" "zz"
      [⟨"h1", 1, "f", "t", 0, "i"⟩, ⟨"h2", 2, "f", "t", 0, "i"⟩,
       ⟨"h3", 3, "f", "t", 0, "i"⟩] rfl (by decide) (by decide)).1

/-- Claim C7: watermark monotonicity.  With the fetched list sorted
strictly ascending in the canonical source order `idx` on transaction
hashes, and consistent with the current watermark — the watermark hash
either occurs in the list or, the fetch window having slid past it,
canonically precedes every fetched entry — one poll iteration never
moves an initialized watermark to a canonically earlier hash. -/
theorem claim_C7_watermark_monotone (idx : String → Nat) (st : BotState)
    (addr w w₁ : String) (txs : List Tx)
    (hinit : getSeen st addr = some w)
    (hsorted : txs.Pairwise (fun a b => idx a.hash < idx b.hash))
    (hcanon : (∃ tx ∈ txs, tx.hash = w) ∨ ∀ tx ∈ txs, idx w < idx tx.hash)
    (hfinal : getSeen (pollStepForAddr st addr txs).1 addr = some w₁) :
    idx w ≤ idx w₁ := by
  cases hl : txs.getLast? with
  | none =>
    have hnil : txs = [] := by simpa using hl
    subst hnil
    have hstep : pollStepForAddr st addr [] = (st, []) := rfl
    rw [hstep, hinit] at hfinal
    injection hfinal with h
    rw [h]
  | some lastTx =>
    have hstep : pollStepForAddr st addr txs =
        ({ st with
            seen := dispatchAll st.seen addr
                      (if (scanLoop w txs false).1 then (scanLoop w txs false).2
                        else txs.drop (txs.length - 2)) },
          if (scanLoop w txs false).1 then (scanLoop w txs false).2
            else txs.drop (txs.length - 2)) := by
      unfold pollStepForAddr
      rw [hl, hinit]
    have hall : ∀ x ∈ (if (scanLoop w txs false).1 then (scanLoop w txs false).2
        else txs.drop (txs.length - 2)), idx w < idx x.hash := by
      intro x hx
      by_cases hflag : (scanLoop w txs false).1 = true
      · rw [if_pos hflag] at hx
        exact scanLoop_false_lt idx w txs hsorted x hx
      · rw [if_neg hflag] at hx
        have hxtxs : x ∈ txs := List.drop_subset _ _ hx
        rcases hcanon with ⟨tx, htx, hh⟩ | hlate
        · exfalso
          apply hflag
          rw [scanLoop_flag]
          simp only [Bool.false_or, List.any_eq_true]
          exact ⟨tx, htx, by simpa using hh⟩
        · exact hlate x hxtxs
    rw [hstep] at hfinal
    simp only [getSeen] at hfinal
    rw [alGet_dispatchAll] at hfinal
    cases hln : (if (scanLoop w txs false).1 then (scanLoop w txs false).2
        else txs.drop (txs.length - 2)).getLast? with
    | none =>
      rw [hln] at hfinal
      have hfw : getSeen st addr = some w₁ := hfinal
      rw [hinit] at hfw
      injection hfw with h
      rw [h]
    | some t =>
      rw [hln] at hfinal
      simp only [Option.getD_some] at hfinal
      injection hfinal with h
      rw [← h]
      exact le_of_lt (hall t (List.mem_of_getLast?_eq_some hln))

/-- Witness for C7: canonical order by hash length; watermark h1 found in
[h1, h22]; the final watermark h22 is canonically later. -/
theorem claim_C7_witness :
    String.length "h1" ≤ String.length "h22" :=
  claim_C7_watermark_monotone String.length
    ⟨[("1", ["0xa"])], [("0xa", some "h1")]⟩ "0xa" "h1" "h22"
    [⟨"h1", 1, "f", "t", 0, "i"⟩, ⟨"h22", 2, "f", "t", 0, "i"⟩]
    rfl (by decide) (Or.inl ⟨⟨"h1", 1, "f", "t", 0, "i"⟩, by decide, rfl⟩)
    (by decide)

theorem add_subscription_of_mem (st : BotState) (chat_id : Int) (address : String)
    (h : norm_addr address ∈ (alGet (toString chat_id) st.subs).getD []) :
    add_subscription st chat_id address = (false, st) := by
  simp only [add_subscription]
  rw [if_pos h]

theorem add_subscription_of_not_mem (st : BotState) (chat_id : Int) (address : String)
    (h : norm_addr address ∉ (alGet (toString chat_id) st.subs).getD []) :
    add_subscription st chat_id address =
      (true,
        ⟨alSet (toString chat_id)
            (((alGet (toString chat_id) st.subs).getD []) ++ [norm_addr address]) st.subs,
          alSetdefault (norm_addr address) none st.seen⟩) := by
  simp only [add_subscription]
  rw [if_neg h]

/-- Claim C4: Add is idempotent up to address normalization.  For two
address strings with the same normalized form, the second Add returns
false and leaves the state exactly as the first Add left it; and when
the normalized address was not followed beforehand, the list of the
subscriber afterwards holds exactly one copy of the normalized form. -/
theorem claim_C4_add_idempotent (st : BotState) (chat_id : Int) (a₁ a₂ : String)
    (hnorm : norm_addr a₁ = norm_addr a₂) :
    (add_subscription (add_subscription st chat_id a₁).2 chat_id a₂).1 = false ∧
    (add_subscription (add_subscription st chat_id a₁).2 chat_id a₂).2 =
      (add_subscription st chat_id a₁).2 ∧
    (norm_addr a₁ ∉ (alGet (toString chat_id) st.subs).getD [] →
      ((alGet (toString chat_id)
          (add_subscription (add_subscription st chat_id a₁).2 chat_id a₂).2.subs).getD
          []).count (norm_addr a₁) = 1) := by
  have hpost : norm_addr a₂ ∈
      (alGet (toString chat_id) (add_subscription st chat_id a₁).2.subs).getD [] := by
    rw [← hnorm]
    by_cases hmem : norm_addr a₁ ∈ (alGet (toString chat_id) st.subs).getD []
    · rw [add_subscription_of_mem st chat_id a₁ hmem]
      exact hmem
    · rw [add_subscription_of_not_mem st chat_id a₁ hmem]
      show norm_addr a₁ ∈ (alGet (toString chat_id)
        (alSet (toString chat_id) _ st.subs)).getD []
      rw [alGet_alSet_self]
      simp
  have hsecond := add_subscription_of_mem (add_subscription st chat_id a₁).2
    chat_id a₂ hpost
  refine ⟨by rw [hsecond], by rw [hsecond], ?_⟩
  intro hfresh
  rw [hsecond, add_subscription_of_not_mem st chat_id a₁ hfresh]
  show ((alGet (toString chat_id) (alSet (toString chat_id) _ st.subs)).getD
    []).count (norm_addr a₁) = 1
  rw [alGet_alSet_self]
  simp only [Option.getD_some, List.count_append]
  rw [List.count_eq_zero.mpr hfresh]
  simp

/-- Witness for C4 mirroring the spec example: follow 0xDEF then its case
variant 0xdef from an empty store. -/
theorem claim_C4_witness :
    (add_subscription (add_subscription ⟨[], []⟩ 42 "0xDEF").2 42 "0xdef").1 = false ∧
    ((alGet (toString (42 : Int))
        (add_subscription (add_subscription ⟨[], []⟩ 42 "0xDEF").2 42
          "0xdef").2.subs).getD []).count (norm_addr "0xDEF") = 1 :=
  ⟨(claim_C4_add_idempotent ⟨[], []⟩ 42 "0xDEF" "0xdef" (by decide)).1,
   (claim_C4_add_idempotent ⟨[], []⟩ 42 "0xDEF" "0xdef" (by decide)).2.2 (by decide)⟩

/-- Claim C5: Remove of an address whose normalized form the subscriber
does not follow returns false and leaves the whole state — the list of
every subscriber and the watermark store — unchanged. -/
theorem claim_C5_remove_absent_noop (st : BotState) (chat_id : Int)
    (address : String)
    (h : norm_addr address ∉ (alGet (toString chat_id) st.subs).getD []) :
    remove_subscription st chat_id address = (false, st) := by
  simp only [remove_subscription]
  rw [if_neg h]

/-- Witness for C5: removing an unfollowed address from a populated
store. -/
theorem claim_C5_witness :
    remove_subscription ⟨[("42", ["0xdef"])], [("0xdef", none)]⟩ 42 "0xABC" =
      (false, ⟨[("42", ["0xdef"])], [("0xdef", none)]⟩) :=
  claim_C5_remove_absent_noop ⟨[("42", ["0xdef"])], [("0xdef", none)]⟩ 42 "0xABC"
    (by decide)

/-- Claim C9 (implicit): Add never overwrites an existing watermark — a
key already bound in the seen store keeps its exact value (initialized or
null), every other key is untouched, and an unbound key either stays
unbound or becomes bound to null (uninitialized). -/
theorem claim_C9_add_preserves_watermarks (st : BotState) (chat_id : Int)
    (address : String) :
    (∀ v, alGet (norm_addr address) st.seen = some v →
      alGet (norm_addr address) (add_subscription st chat_id address).2.seen = some v) ∧
    (alGet (norm_addr address) st.seen = none →
      alGet (norm_addr address) (add_subscription st chat_id address).2.seen = none ∨
      alGet (norm_addr address) (add_subscription st chat_id address).2.seen =
        some none) ∧
    (∀ b, b ≠ norm_addr address →
      alGet b (add_subscription st chat_id address).2.seen = alGet b st.seen) := by
  by_cases hmem : norm_addr address ∈ (alGet (toString chat_id) st.subs).getD []
  · rw [add_subscription_of_mem st chat_id address hmem]
    exact ⟨fun v hv => hv, fun h => Or.inl h, fun b _ => rfl⟩
  · rw [add_subscription_of_not_mem st chat_id address hmem]
    refine ⟨?_, ?_, ?_⟩
    · intro v hv
      show alGet (norm_addr address)
        (alSetdefault (norm_addr address) none st.seen) = some v
      rw [alSetdefault_of_some _ _ _ (by rw [hv]; rfl)]
      exact hv
    · intro h
      right
      show alGet (norm_addr address)
        (alSetdefault (norm_addr address) none st.seen) = some none
      exact alGet_alSetdefault_of_none _ _ _ h
    · intro b hb
      show alGet b (alSetdefault (norm_addr address) none st.seen) = alGet b st.seen
      exact alGet_alSetdefault_ne _ _ _ _ hb

/-- Witness for C9: following 0xA leaves the existing watermark for 0xa
bound to h7. -/
theorem claim_C9_witness :
    alGet (norm_addr "0xA")
        (add_subscription ⟨[], [("0xa", some "h7")]⟩ 5 "0xA").2.seen =
      some (some "h7") :=
  (claim_C9_add_preserves_watermarks ⟨[], [("0xa", some "h7")]⟩ 5 "0xA").1
    (some "h7") (by decide)

/-- Claim C10 (implicit): an update with no message payload, or whose
message text is empty, produces no reply and leaves both stores
unchanged. -/
theorem claim_C10_empty_update_noop (walletInfo : String → String)
    (st : BotState) (u : Update)
    (h : u.message = none ∨ ∃ m, u.message = some m ∧ m.text = "") :
    process_update walletInfo st u = ([], st) := by
  rcases h with h | ⟨m, hm, ht⟩
  · simp [process_update, h]
  · simp [process_update, hm, ht]

/-- Witness for C10 at an update carrying no message. -/
theorem claim_C10_witness :
    process_update (fun _ => "") ⟨[("1", ["0xa"])], [("0xa", none)]⟩ ⟨none⟩ =
      ([], ⟨[("1", ["0xa"])], [("0xa", none)]⟩) :=
  claim_C10_empty_update_noop (fun _ => "") ⟨[("1", ["0xa"])], [("0xa", none)]⟩
    ⟨none⟩ (Or.inl rfl)

/-- Claim C6: command dispatch keys on the first whitespace-delimited
token of the stripped text, lowercased; a recognized argument-requiring
command (/follow, /unfollow, /info) arriving with no argument falls
through to the generic unknown-command reply and mutates no state. -/
theorem claim_C6_missing_arg_unknown (walletInfo : String → String)
    (st : BotState) (m : Msg) (hne : (m.text == "") = false)
    (hslash : pyStartsWith (pyStrip m.text) "/" = true)
    (hcmd : pyLower (splitMaxsplit1 (pyStrip m.text)).1 = "/follow" ∨
            pyLower (splitMaxsplit1 (pyStrip m.text)).1 = "/unfollow" ∨
            pyLower (splitMaxsplit1 (pyStrip m.text)).1 = "/info")
    (harg : strTruthy (splitMaxsplit1 (pyStrip m.text)).2 = false) :
    process_update walletInfo st ⟨some m⟩ = ([(m.chatId, unknownCmdText)], st) := by
  rcases hcmd with hc | hc | hc <;>
    simp [process_update, hne, hslash, hc, harg]

/-- Witness for C6: an upper-case /INFO with no argument gets the
unknown-command reply and changes nothing. -/
theorem claim_C6_witness :
    process_update (fun _ => "") ⟨[("7", ["0xa"])], []⟩ ⟨some ⟨7, " /INFO "⟩⟩ =
      ([(7, unknownCmdText)], ⟨[("7", ["0xa"])], []⟩) :=
  claim_C6_missing_arg_unknown (fun _ => "") ⟨[("7", ["0xa"])], []⟩ ⟨7, " /INFO "⟩
    (by decide) (by decide) (Or.inr (Or.inr (by decide))) (by decide)

/-- Claim C8: when the market-data lookup yields no trade whose hash
matches the transaction — including a failed lookup, which yields no
trade records at all — the composed notification is the
plain-transaction format, not the trade format. -/
theorem claim_C8_enrichment_fallback (address : String) (tx : Tx)
    (trades : List (Option Trade))
    (h : match_tx_with_polymarket_trade tx.hash trades = none) :
    fmt_tx_message_for_subscribers address tx trades = plainTxMsg address tx := by
  unfold fmt_tx_message_for_subscribers
  rw [h]

/-- Witness for C8: a trade list whose only record carries a different
hash yields the plain format. -/
theorem claim_C8_witness :
    fmt_tx_message_for_subscribers "0xa" ⟨"h1", 1, "f", "t", 0, "i"⟩
        [some ⟨some "hZ", none, none, some "BUY", some "0.5", some "10",
          some "Mkt", none, none, some "Yes"⟩] =
      plainTxMsg "0xa" ⟨"h1", 1, "f", "t", 0, "i"⟩ :=
  claim_C8_enrichment_fallback "0xa" ⟨"h1", 1, "f", "t", 0, "i"⟩
    [some ⟨some "hZ", none, none, some "BUY", some "0.5", some "10",
      some "Mkt", none, none, some "Yes"⟩] (by decide)

end PolyAlert
